import Mathlib

/-!
# BlindBet confidential prediction market — verification development

Shallow embedding of the BlindBet core contracts
(`contracts/core/BlindBetMarket.sol`, `contracts/abstract/Resolvable.sol`,
`contracts/libraries/PayoutCalculator.sol`, `contracts/libraries/FHEMath.sol`)
in Lean 4.

Encrypted 64-bit integers (`euint64`) are modelled as `Nat` with explicit
wrap-around `% 2^64` where the FHE coprocessor wraps; encrypted booleans
(`ebool`) as `Bool`.  A Solidity `revert` is modelled by returning
`Except.error e`: the transaction is discarded, so an `error` result means
no state change.  The external confidential token collaborator is modelled
by the amount it actually moved (which may be smaller than requested: the
token clamps silently on insufficient balance/allowance), and the KMS
decryption-proof checker `FHE.checkSignatures` is modelled as a boolean
relation supplied as a parameter, describing which
(handles, cleartexts, proof) triples carry valid threshold signatures.
-/

namespace BlindBet

/-- Modulus of the euint64 type. -/
def U64 : Nat := 2 ^ 64

namespace FHE

/-- `FHE.add` on euint64: wrapping addition. -/
def add (a b : Nat) : Nat := (a + b) % U64

/-- `FHE.sub` on euint64: wrapping subtraction (two's complement on 64 bits). -/
def sub (a b : Nat) : Nat := (a % U64 + (U64 - b % U64)) % U64

/-- `FHE.mul` on euint64: wrapping multiplication. -/
def mul (a b : Nat) : Nat := (a * b) % U64

/-- `FHE.div` of a euint64 by a plaintext: truncating division (0 on divisor 0,
as in the FHE coprocessor). -/
def div (a b : Nat) : Nat := a / b

/-- `FHE.select` on an encrypted boolean: branchless choice. -/
def select (c : Bool) (a b : Nat) : Nat := if c then a else b

/-- `FHE.lt` on euint64 values. -/
def lt (a b : Nat) : Bool := decide (a % U64 < b % U64)

end FHE

/-- `IBlindBetMarket.MarketState`: lifecycle states, in declaration order. -/
inductive MarketState
  | Open
  | Locked
  | Resolving
  | Resolved
deriving DecidableEq, Repr

/-- `IBlindBetMarket.Outcome`: resolution outcomes, in declaration order. -/
inductive Outcome
  | NotSet
  | Yes
  | No
  | Invalid
deriving DecidableEq, Repr

/-- The uint8 code an `Outcome` is stored as (`MarketLib.Market.resolvedOutcome`). -/
def Outcome.toCode : Outcome → Nat
  | .NotSet => 0
  | .Yes => 1
  | .No => 2
  | .Invalid => 3

/-- Structural revert reasons of the plaintext error regime
(`IBlindBetMarket` errors, `Resolvable` errors and `require` strings). -/
inductive Err
  | marketNotFound
  | invalidState
  | deadlineNotReached
  | bettingClosed
  | unauthorizedResolver
  | alreadyClaimed
  | invalidDecryptionProof
  | invalidOutcome
  | totalsNotDecrypted
  | arithmeticOverflow
deriving DecidableEq, Repr

/-- `MarketLib.Market`: per-market state.  Encrypted running totals are the
euint64 values `totalYesAmount`/`totalNoAmount`; `yesHandle`/`noHandle` are the
ciphertext handles (`FHE.toBytes32`) identifying those two ciphertexts to the
decryption service. -/
structure Market where
  id : Nat
  bettingDeadline : Nat
  resolutionTime : Nat
  state : MarketState
  resolvedOutcome : Outcome
  creator : Nat
  resolver : Nat
  totalYesAmount : Nat
  totalNoAmount : Nat
  yesHandle : Nat
  noHandle : Nat
  totalsDecrypted : Bool
  decryptedYesAmount : Nat
  decryptedNoAmount : Nat
deriving DecidableEq, Repr

/-- `MarketLib.Position`: per-(market, bettor) state.  `existsFlag` is the
encrypted has-position flag (`exists` in the source, a Lean keyword). -/
structure Position where
  yesAmount : Nat
  noAmount : Nat
  existsFlag : Bool
  claimed : Bool
deriving DecidableEq, Repr

/-- Modelled from the spec: `MarketLib.updatePosition` (MarketLib.sol is not
under src/; only its callers are).  §4.3: given an encrypted amount and an
encrypted boolean selecting Yes/No, adds `amount` to `position.yesAmount` if
the side flag is true and to `position.noAmount` otherwise — branchless
homomorphic selection over two tentative sums — and sets the encrypted
has-position flag to true unconditionally. -/
def updatePosition (p : Position) (amount : Nat) (outcome : Bool) : Position :=
  { p with
    yesAmount := FHE.select outcome (FHE.add p.yesAmount amount) p.yesAmount
    noAmount := FHE.select outcome p.noAmount (FHE.add p.noAmount amount)
    existsFlag := true }

/-- Modelled from the spec: `MarketLib.updateMarketTotals` (MarketLib.sol is
not under src/).  §4.3: mirrors the same branchless update against the
market's two running pools. -/
def updateMarketTotals (m : Market) (amount : Nat) (outcome : Bool) : Market :=
  { m with
    totalYesAmount := FHE.select outcome (FHE.add m.totalYesAmount amount) m.totalYesAmount
    totalNoAmount := FHE.select outcome m.totalNoAmount (FHE.add m.totalNoAmount amount) }

/-- Modelled from the spec: `MarketLib.lockMarket` (MarketLib.sol is not under
src/).  §4.1: the `lock` transition sets the state to Locked. -/
def Market.lockState (m : Market) : Market :=
  { m with state := MarketState.Locked }

/-- Modelled from the spec: `MarketLib.markResolved` (MarketLib.sol is not
under src/).  §4.5 phase 2: on a verified submission the plaintext totals are
stored, the totals-decrypted flag is set, and the market moves to Resolved
with the given outcome (NotSet at this point). -/
def Market.markResolved (m : Market) (o : Outcome) (totalYes totalNo : Nat) : Market :=
  { m with
    state := MarketState.Resolved
    resolvedOutcome := o
    decryptedYesAmount := totalYes
    decryptedNoAmount := totalNo
    totalsDecrypted := true }

/-! ## PayoutCalculator (contracts/libraries/PayoutCalculator.sol) -/

/-- `PayoutCalculator.FEE_BASIS_POINTS` (2%). -/
def FEE_BASIS_POINTS : Nat := 200

/-- `PayoutCalculator.BASIS_POINTS_DENOMINATOR`. -/
def BASIS_POINTS_DENOMINATOR : Nat := 10000

/-- `PayoutCalculator._calculateWinningPayout`: payout for a stake on the
winning side, from the market's decrypted pool totals.  Requires
`totalsDecrypted` (reverts "Totals not decrypted" otherwise); returns the
bare stake when either pool is zero; otherwise computes the local
variables `totalPool`, `feeAmount` and `prizePool` — dead for the result,
but Solidity ^0.8 checked uint64 arithmetic, so the call Panic-reverts
(modelled as `Err.arithmeticOverflow`) when `winningPool + losingPool` or
`totalPool * FEE_BASIS_POINTS` exceeds the uint64 range — and returns
`userPosition + FHE.div (FHE.mul userPosition losingPool) winningPool`
(the FHE operations themselves wrap, they never revert). -/
def calculateWinningPayout (userPosition : Nat) (m : Market) (isYesWinner : Bool) :
    Except Err Nat :=
  if ¬ m.totalsDecrypted then .error .totalsNotDecrypted
  else
    let winningPool := if isYesWinner then m.decryptedYesAmount else m.decryptedNoAmount
    let losingPool := if isYesWinner then m.decryptedNoAmount else m.decryptedYesAmount
    if winningPool = 0 ∨ losingPool = 0 then .ok userPosition
    else if U64 ≤ winningPool + losingPool then .error .arithmeticOverflow
    else
      let totalPool := winningPool + losingPool
      if U64 ≤ totalPool * FEE_BASIS_POINTS then .error .arithmeticOverflow
      else
        let feeAmount := totalPool * FEE_BASIS_POINTS / BASIS_POINTS_DENOMINATOR
        let prizePool := totalPool - feeAmount
        let profit := FHE.div (FHE.mul userPosition losingPool) winningPool
        .ok (FHE.add userPosition profit)

/-- `PayoutCalculator.calculatePayout`: dispatch on the uint8 outcome code
(3 = Invalid: refund `yesAmount + noAmount`; 1 = Yes wins; 2 = No wins;
anything else, in particular 0 = NotSet: payout 0). -/
def calculatePayout (p : Position) (m : Market) (outcome : Nat) : Except Err Nat :=
  if outcome = 3 then .ok (FHE.add p.yesAmount p.noAmount)
  else if outcome = 1 then calculateWinningPayout p.yesAmount m true
  else if outcome = 2 then calculateWinningPayout p.noAmount m false
  else .ok 0

/-- `PayoutCalculator.calculateMarketFee`: plaintext fee from the decrypted
pool totals; requires `totalsDecrypted`.  The checked uint64 addition and
multiplication Panic-revert (modelled as `Err.arithmeticOverflow`) when
the pool sum or its product with `FEE_BASIS_POINTS` leaves the uint64
range. -/
def calculateMarketFee (m : Market) : Except Err Nat :=
  if ¬ m.totalsDecrypted then .error .totalsNotDecrypted
  else if U64 ≤ m.decryptedYesAmount + m.decryptedNoAmount then
    .error .arithmeticOverflow
  else
    let totalPool := m.decryptedYesAmount + m.decryptedNoAmount
    if U64 ≤ totalPool * FEE_BASIS_POINTS then .error .arithmeticOverflow
    else .ok (totalPool * FEE_BASIS_POINTS / BASIS_POINTS_DENOMINATOR)

/-! ## FHEMath (contracts/libraries/FHEMath.sol) -/

namespace FHEMath

/-- `FHEMath.safeAdd`: wrapping sum plus overflow flag (sum < a); on
overflow the result is the first operand. -/
def safeAdd (a b : Nat) : Nat × Bool :=
  let sum := FHE.add a b
  let hasOverflow := FHE.lt sum a
  (FHE.select hasOverflow a sum, hasOverflow)

/-- `FHEMath.safeMul`: the source performs the wrapping multiplication and
returns a placeholder always-false overflow flag (its own doc comment
promises "Product if no overflow, a if overflow" and a true flag on
overflow; the body's TODO admits the check is not implemented). -/
def safeMul (a b : Nat) : Nat × Bool :=
  (FHE.mul a b, false)

end FHEMath

/-! ## Market operations (contracts/core/BlindBetMarket.sol)

Each operation is a step function `... → Except Err ...`; `Except.error`
models a revert, after which the transaction — including any state write or
token transfer attempted before the failing check — is discarded, so an
error result leaves all state unchanged.

The `marketExists` / `onlyMarketState` / `onlyBeforeDeadline` /
`onlyAfterDeadline` / `onlyAfterResolutionTime` / `onlyResolved` modifiers
live in `MarketBase.sol`, which is not under src/.  They are modelled from
the spec (§4.1, §7): wrong lifecycle state reverts with an invalid-state
error; `lock` is legal only after the betting deadline; bets only before it;
`requestResolution` only after the resolution time; `onlyResolved` requires
state Resolved; `onlyResolver` requires `isAuthorizedResolver` (whose body
is in src/: the market's resolver, or the contract owner as fallback). -/

/-- `BlindBetMarket.isAuthorizedResolver`: the market's designated resolver,
or the contract owner as fallback. -/
def isAuthorizedResolver (m : Market) (ownerAddr caller : Nat) : Bool :=
  m.resolver == caller || caller == ownerAddr

/-- Result of a successful `placeBet`: updated market and position, plus the
euint64 `actualAmount` credited (also emitted in the `BetPlaced` event). -/
structure BetResult where
  market : Market
  position : Position
  credited : Nat
deriving DecidableEq, Repr

/-- `BlindBetMarket.placeBet`.  `requested` is the bettor's encrypted amount
after `FHE.fromExternal`; the external confidential token moves some actual
amount `transferred` (silently clamped — possibly smaller than `requested` —
on insufficient balance/allowance, per `IConfidentialERC20`), raising the
market's token balance from `bal` to `FHE.add bal transferred`.  The
contract credits `FHE.sub balanceAfter balanceBefore`, never `requested`,
to the position and the pools. -/
def placeBet (m : Market) (p : Position) (now : Nat)
    (requested : Nat) (outcome : Bool) (bal transferred : Nat) :
    Except Err BetResult :=
  if m.state ≠ MarketState.Open then .error .invalidState
  else if m.bettingDeadline ≤ now then .error .bettingClosed
  else
    let balanceBefore := bal
    let balanceAfter := FHE.add bal transferred
    let actualAmount := FHE.sub balanceAfter balanceBefore
    .ok { market := updateMarketTotals m actualAmount outcome
          position := updatePosition p actualAmount outcome
          credited := actualAmount }

/-- `BlindBetMarket.lockMarket`: Open → Locked, only after the betting
deadline. -/
def lockMarket (m : Market) (now : Nat) : Except Err Market :=
  if m.state ≠ MarketState.Open then .error .invalidState
  else if now < m.bettingDeadline then .error .deadlineNotReached
  else .ok m.lockState

/-- `BlindBetMarket.requestResolution`: Locked → Resolving, only after the
resolution time and only for an authorized resolver; marks the two pool
ciphertexts publicly decryptable (no on-chain state of its own). -/
def requestResolution (m : Market) (now ownerAddr caller : Nat) : Except Err Market :=
  if m.state ≠ MarketState.Locked then .error .invalidState
  else if now < m.resolutionTime then .error .deadlineNotReached
  else if ¬ isAuthorizedResolver m ownerAddr caller then .error .unauthorizedResolver
  else .ok { m with state := MarketState.Resolving }

/-- The KMS threshold-signature checker `FHE.checkSignatures` (an external
collaborator, §6): a relation telling which (handles list, claimed
cleartexts, proof) triples carry a valid quorum signature.  It certifies
that the cleartexts open the listed handles; it knows nothing about which
market a handle belongs to. -/
def KmsModel : Type := List Nat → Nat × Nat → Nat → Bool

/-- `BlindBetMarket.submitDecryptedTotals` (with the inherited
`Resolvable.submitDecryptedTotals` body inlined at its `super` call):
requires state Resolving ("Market not resolving"), verifies the KMS
signatures over exactly the submitted `(handlesList, cleartexts, proof)`
(reverting on failure), decodes the two uint64 totals, stores them, and
marks the market Resolved with outcome NotSet. -/
def submitDecryptedTotals (kms : KmsModel) (m : Market)
    (handlesList : List Nat) (cleartexts : Nat × Nat) (decryptionProof : Nat) :
    Except Err Market :=
  if m.state ≠ MarketState.Resolving then .error .invalidState
  else if ¬ kms handlesList cleartexts decryptionProof then .error .invalidDecryptionProof
  else
    let totalYes := cleartexts.1 % U64
    let totalNo := cleartexts.2 % U64
    .ok (m.markResolved Outcome.NotSet totalYes totalNo)

/-- `BlindBetMarket.setResolution`: requires state Resolved and an
authorized resolver, and an outcome argument in {Yes, No, Invalid}
("Invalid outcome" otherwise); stores the outcome.  The source has no check
that the current outcome is still NotSet. -/
def setResolution (m : Market) (ownerAddr caller : Nat) (o : Outcome) :
    Except Err Market :=
  if m.state ≠ MarketState.Resolved then .error .invalidState
  else if ¬ isAuthorizedResolver m ownerAddr caller then .error .unauthorizedResolver
  else if ¬ (o = Outcome.Yes ∨ o = Outcome.No ∨ o = Outcome.Invalid) then
    .error .invalidOutcome
  else .ok { m with resolvedOutcome := o }

/-- Result of a successful `claimWinnings`: the claimed position and the
euint64 payout transferred through the token. -/
structure ClaimResult where
  position : Position
  payout : Nat
deriving DecidableEq, Repr

/-- `BlindBetMarket.claimWinnings`: requires state Resolved; reverts
`AlreadyClaimed` on a second claim; otherwise marks the position claimed
(`_markClaimed`), computes the payout from the stored outcome code via
`PayoutCalculator.calculatePayout`, and transfers it. -/
def claimWinnings (m : Market) (p : Position) : Except Err ClaimResult :=
  if m.state ≠ MarketState.Resolved then .error .invalidState
  else if p.claimed then .error .alreadyClaimed
  else do
    let payout ← calculatePayout p m m.resolvedOutcome.toCode
    .ok { position := { p with claimed := true }, payout := payout }

/-! ## Concrete example states (from the repository's tests: pools
Yes = 1500, No = 2000) -/

/-- A market in Resolved state with decrypted pools Yes = 1500, No = 2000
and outcome Yes (the proportional-payout scenario of the test suite). -/
def exMarketYesWins : Market :=
  { id := 0, bettingDeadline := 100, resolutionTime := 200
    state := MarketState.Resolved, resolvedOutcome := Outcome.Yes
    creator := 1, resolver := 5
    totalYesAmount := 1500, totalNoAmount := 2000
    yesHandle := 11, noHandle := 12
    totalsDecrypted := true, decryptedYesAmount := 1500, decryptedNoAmount := 2000 }

/-- The same pools, still awaiting the resolver: state Resolved, outcome
NotSet, totals decrypted. -/
def exMarketNotSet : Market :=
  { exMarketYesWins with resolvedOutcome := Outcome.NotSet }

/-- The same pools resolved Invalid. -/
def exMarketInvalid : Market :=
  { exMarketYesWins with resolvedOutcome := Outcome.Invalid }

/-- A market still in Resolving state (own pool handles 11 and 12),
totals not yet decrypted. -/
def exMarketResolving : Market :=
  { exMarketYesWins with
    state := MarketState.Resolving, resolvedOutcome := Outcome.NotSet
    totalsDecrypted := false, decryptedYesAmount := 0, decryptedNoAmount := 0 }

/-- An open market accepting bets until time 100. -/
def exMarketOpen : Market :=
  { exMarketResolving with
    state := MarketState.Open, totalYesAmount := 0, totalNoAmount := 0 }

/-! ## Helper lemmas -/

/-- Observed-delta arithmetic: receiving `b` tokens on a balance of `a`
reads back exactly `b` from the wrapping before/after subtraction, as long
as the balance does not overflow the euint64 range. -/
theorem FHE.add_sub_cancel (a b : Nat) (h : a + b < U64) :
    FHE.sub (FHE.add a b) a = b := by
  have ha : a < U64 := lt_of_le_of_lt (Nat.le_add_right a b) h
  have hb : b < U64 := lt_of_le_of_lt (Nat.le_add_left b a) h
  unfold FHE.sub FHE.add
  rw [Nat.mod_eq_of_lt h, Nat.mod_eq_of_lt h, Nat.mod_eq_of_lt ha]
  have hrw : a + b + (U64 - a) = b + U64 := by omega
  rw [hrw, Nat.add_mod_right, Nat.mod_eq_of_lt hb]

/-- Truncating division is superadditive in the numerator. -/
theorem Nat.div_add_div_le_add_div (a b c : Nat) : a / c + b / c ≤ (a + b) / c := by
  rcases Nat.eq_zero_or_pos c with hc | hc
  · simp [hc]
  · rw [Nat.le_div_iff_mul_le hc, Nat.add_mul]
    exact Nat.add_le_add (Nat.div_mul_le_self a c) (Nat.div_mul_le_self b c)

/-- Evaluation of `_calculateWinningPayout` when both pools are nonzero,
the checked fee computation stays in the uint64 range and nothing wraps:
principal plus truncated pro-rata profit. -/
theorem calculateWinningPayout_nonzero (m : Market) (s W L : Nat) (isYes : Bool)
    (hdec : m.totalsDecrypted = true)
    (hW : (if isYes then m.decryptedYesAmount else m.decryptedNoAmount) = W)
    (hL : (if isYes then m.decryptedNoAmount else m.decryptedYesAmount) = L)
    (hW0 : W ≠ 0) (hL0 : L ≠ 0)
    (hfee : (W + L) * FEE_BASIS_POINTS < U64)
    (hsL : s * L < U64) (hpay : s + s * L / W < U64) :
    calculateWinningPayout s m isYes = .ok (s + s * L / W) := by
  have hWL : W + L < U64 := by
    have h1 : W + L ≤ (W + L) * FEE_BASIS_POINTS :=
      Nat.le_mul_of_pos_right (W + L) (by norm_num [FEE_BASIS_POINTS])
    omega
  simp only [calculateWinningPayout, hdec, hW, hL, FHE.add, FHE.mul, FHE.div,
    not_true, if_false, ite_false]
  rw [if_neg (by push_neg; exact ⟨hW0, hL0⟩), if_neg (by omega), if_neg (by omega),
    Nat.mod_eq_of_lt hsL, Nat.mod_eq_of_lt hpay]

/-- Evaluation of `_calculateWinningPayout` when a pool is empty: the bare
stake. -/
theorem calculateWinningPayout_zero_pool (m : Market) (s W L : Nat) (isYes : Bool)
    (hdec : m.totalsDecrypted = true)
    (hW : (if isYes then m.decryptedYesAmount else m.decryptedNoAmount) = W)
    (hL : (if isYes then m.decryptedNoAmount else m.decryptedYesAmount) = L)
    (hzero : W = 0 ∨ L = 0) :
    calculateWinningPayout s m isYes = .ok s := by
  simp only [calculateWinningPayout, hdec, hW, hL, not_true, if_false, ite_false]
  rw [if_pos hzero]

/-- Evaluation of `_calculateWinningPayout` when both pools are nonzero but
the checked uint64 computation of the (otherwise dead) fee locals leaves
the 64-bit range: the call Panic-reverts. -/
theorem calculateWinningPayout_overflow (m : Market) (s W L : Nat) (isYes : Bool)
    (hdec : m.totalsDecrypted = true)
    (hW : (if isYes then m.decryptedYesAmount else m.decryptedNoAmount) = W)
    (hL : (if isYes then m.decryptedNoAmount else m.decryptedYesAmount) = L)
    (hW0 : W ≠ 0) (hL0 : L ≠ 0)
    (hov : U64 ≤ W + L ∨ U64 ≤ (W + L) * FEE_BASIS_POINTS) :
    calculateWinningPayout s m isYes = .error Err.arithmeticOverflow := by
  simp only [calculateWinningPayout, hdec, hW, hL, not_true, if_false, ite_false]
  rw [if_neg (by push_neg; exact ⟨hW0, hL0⟩)]
  rcases hov with h | h
  · rw [if_pos h]
  · by_cases h2 : U64 ≤ W + L
    · rw [if_pos h2]
    · rw [if_neg h2, if_pos h]

/-! ## Claim theorems -/

/-- **C3.** For a resolved market with decrypted totals and a winning
outcome, the payout for a winning-side stake is the stake itself when
either decrypted pool is zero, and — whenever the checked uint64
computation of the fee locals stays in range — otherwise
`stake + floor(stake * losingPool / winningPool)` (integer-truncated
division); when that checked computation overflows the call Panic-reverts
instead of paying.  In particular for pools Yes = 1500, No = 2000 and
outcome Yes, a stake of 1000 yields 2333 and a stake of 500 yields 1166. -/
theorem winning_payout_formula (m : Market) (stake W L : Nat) (isYes : Bool)
    (hdec : m.totalsDecrypted = true)
    (hW : (if isYes then m.decryptedYesAmount else m.decryptedNoAmount) = W)
    (hL : (if isYes then m.decryptedNoAmount else m.decryptedYesAmount) = L)
    (hmul : stake * L < U64)
    (hpay : stake + stake * L / W < U64) :
    (W = 0 ∨ L = 0 → calculateWinningPayout stake m isYes = .ok stake) ∧
    (W ≠ 0 → L ≠ 0 → (W + L) * FEE_BASIS_POINTS < U64 →
      calculateWinningPayout stake m isYes = .ok (stake + stake * L / W)) ∧
    (W ≠ 0 → L ≠ 0 → U64 ≤ W + L ∨ U64 ≤ (W + L) * FEE_BASIS_POINTS →
      calculateWinningPayout stake m isYes = .error Err.arithmeticOverflow) ∧
    calculatePayout ⟨1000, 0, true, false⟩ exMarketYesWins 1 = .ok 2333 ∧
    calculatePayout ⟨500, 0, true, false⟩ exMarketYesWins 1 = .ok 1166 := by
  refine ⟨fun hz => ?_, fun hW0 hL0 hfee => ?_, fun hW0 hL0 hov => ?_, rfl, rfl⟩
  · exact calculateWinningPayout_zero_pool m stake W L isYes hdec hW hL hz
  · exact calculateWinningPayout_nonzero m stake W L isYes hdec hW hL hW0 hL0
      hfee hmul hpay
  · exact calculateWinningPayout_overflow m stake W L isYes hdec hW hL hW0 hL0 hov

/-- Witness for C3 at the test-suite scenario: pools Yes = 1500,
No = 2000, stake 1000 on the winning Yes side. -/
theorem winning_payout_formula_witness :
    calculateWinningPayout 1000 exMarketYesWins true = .ok (1000 + 1000 * 2000 / 1500) ∧
    calculatePayout ⟨1000, 0, true, false⟩ exMarketYesWins 1 = .ok 2333 := by
  have h := winning_payout_formula exMarketYesWins 1000 1500 2000 true rfl rfl rfl
    (by norm_num [U64]) (by norm_num [U64])
  exact ⟨h.2.1 (by norm_num) (by norm_num) (by norm_num [U64, FEE_BASIS_POINTS]),
    h.2.2.2.1⟩

/-- **C7.** For a market resolved Invalid, every bettor's claim payout is
`yesAmount + noAmount` — a full refund regardless of pool sizes (the
market, pools included, is arbitrary here), with no fee deducted. -/
theorem invalid_outcome_full_refund (m : Market) (p : Position)
    (hs : m.state = MarketState.Resolved)
    (ho : m.resolvedOutcome = Outcome.Invalid)
    (hc : p.claimed = false)
    (hsum : p.yesAmount + p.noAmount < U64) :
    claimWinnings m p =
      .ok ⟨{ p with claimed := true }, p.yesAmount + p.noAmount⟩ ∧
    calculatePayout p m 3 = .ok (p.yesAmount + p.noAmount) := by
  have hpay : calculatePayout p m 3 = .ok (p.yesAmount + p.noAmount) := by
    have h0 : calculatePayout p m 3 = .ok ((p.yesAmount + p.noAmount) % U64) := rfl
    rw [h0, Nat.mod_eq_of_lt hsum]
  refine ⟨?_, hpay⟩
  have hstep : claimWinnings m p =
      (calculatePayout p m 3).bind fun payout =>
        .ok ⟨{ p with claimed := true }, payout⟩ := by
    unfold claimWinnings
    rw [if_neg (by simp [hs]), if_neg (by simp [hc]), ho]
    rfl
  rw [hstep, hpay]
  rfl

/-- Witness for C7: a bettor with encrypted stakes 5 (Yes) and 7 (No) on
the Invalid-resolved example market is refunded 12. -/
theorem invalid_outcome_full_refund_witness :
    claimWinnings exMarketInvalid ⟨5, 7, true, false⟩ =
      .ok ⟨⟨5, 7, true, true⟩, 12⟩ :=
  (invalid_outcome_full_refund exMarketInvalid ⟨5, 7, true, false⟩ rfl rfl rfl
    (by norm_num [U64])).1

/-- **C9.** On a market that is Resolved with totals settled but outcome
still NotSet, `claimWinnings` nevertheless succeeds: it marks the position
claimed and transfers an encrypted payout of zero, so the bettor's later
claim after the real outcome is set fails with the already-claimed error. -/
theorem claim_before_outcome_pays_zero (m : Market) (p : Position)
    (hs : m.state = MarketState.Resolved)
    (ho : m.resolvedOutcome = Outcome.NotSet)
    (hc : p.claimed = false) :
    claimWinnings m p = .ok ⟨{ p with claimed := true }, 0⟩ ∧
    ∀ m' : Market, m'.state = MarketState.Resolved →
      claimWinnings m' { p with claimed := true } = .error Err.alreadyClaimed := by
  constructor
  · have hstep : claimWinnings m p =
        (calculatePayout p m 0).bind fun payout =>
          .ok ⟨{ p with claimed := true }, payout⟩ := by
      unfold claimWinnings
      rw [if_neg (by simp [hs]), if_neg (by simp [hc]), ho]
      rfl
    rw [hstep]
    rfl
  · intro m' hs'
    unfold claimWinnings
    rw [if_neg (by simp [hs']), if_pos rfl]

/-- Witness for C9: on the NotSet example market, the first claim succeeds
with payout 0 and the second fails AlreadyClaimed. -/
theorem claim_before_outcome_pays_zero_witness :
    claimWinnings exMarketNotSet ⟨5, 7, true, false⟩ = .ok ⟨⟨5, 7, true, true⟩, 0⟩ ∧
    claimWinnings exMarketNotSet ⟨5, 7, true, true⟩ = .error Err.alreadyClaimed := by
  have h := claim_before_outcome_pays_zero exMarketNotSet ⟨5, 7, true, false⟩ rfl rfl rfl
  exact ⟨h.1, h.2 exMarketNotSet rfl⟩

/-- **C10 (code bug).** `FHEMath.safeMul`'s own doc comment promises a true
overflow flag and a guarded result whenever the mathematical product
exceeds the 64-bit maximum, but the body is an acknowledged placeholder:
at a = b = 2^32 the product 2^64 overflows, yet the function returns the
wrapped product 0 with the flag false — indeed the flag is false for every
input. -/
theorem safeMul_no_overflow_detection :
    FHEMath.safeMul (2 ^ 32) (2 ^ 32) = (0, false) ∧
    U64 - 1 < 2 ^ 32 * 2 ^ 32 ∧
    ∀ a b : Nat, (FHEMath.safeMul a b).2 = false := by
  refine ⟨rfl, by norm_num [U64], fun a b => rfl⟩

/-- **C8 counterexample.** With pools Yes = 1500 (winning) and No = 2000,
the fee is 70 and the claimed prize pool 1500 + 2000 - 70 = 3430; yet a
single winning position holding the whole winning pool (stake 1500) is
paid 3500 — the computed fee is never deducted from any payout, so the
payouts exceed the prize pool. -/
theorem payout_sum_exceeds_prize_pool :
    calculateWinningPayout 1500 exMarketYesWins true = .ok 3500 ∧
    calculateMarketFee exMarketYesWins = .ok 70 ∧
    1500 + 2000 - 70 < 3500 := ⟨rfl, rfl, by norm_num⟩

/-- The payout value a successful `_calculateWinningPayout` returns (0 if
it reverts): used to sum payouts over a set of winning positions. -/
def winPayoutValue (m : Market) (isYes : Bool) (s : Nat) : Nat :=
  ((calculateWinningPayout s m isYes).toOption).getD 0

/-- Summing the per-stake payout formula: the truncated profits add up to
at most the truncated profit of the summed stake. -/
theorem sum_map_payout_le (W L : Nat) (l : List Nat) :
    (l.map fun s => s + s * L / W).sum ≤ l.sum + l.sum * L / W := by
  induction l with
  | nil => simp
  | cons a t ih =>
    simp only [List.map_cons, List.sum_cons]
    have h4 : a * L / W + t.sum * L / W ≤ (a + t.sum) * L / W := by
      rw [Nat.add_mul]
      exact Nat.div_add_div_le_add_div _ _ _
    calc a + a * L / W + (t.map fun s => s + s * L / W).sum
        ≤ a + a * L / W + (t.sum + t.sum * L / W) := Nat.add_le_add_left ih _
      _ = a + t.sum + (a * L / W + t.sum * L / W) := by ring
      _ ≤ a + t.sum + (a + t.sum) * L / W := Nat.add_le_add_left h4 _

/-- **C8 (amended).** With both decrypted pools nonzero, each winner is
paid `stake + floor(stake * losingPool / winningPool)`; for any list of
winning stakes summing to at most the winning pool, the payouts sum to at
most `winningPool + losingPool` — the full combined pool: the 2% fee the
code computes is never deducted from any payout, so the bound claimed
against `prizePool = winningPool + losingPool - fee` fails (see the
counterexample) and only the fee-free bound holds. -/
theorem payout_sum_bounded_by_total_pool (m : Market) (l : List Nat)
    (W L : Nat) (isYes : Bool)
    (hdec : m.totalsDecrypted = true)
    (hW : (if isYes then m.decryptedYesAmount else m.decryptedNoAmount) = W)
    (hL : (if isYes then m.decryptedNoAmount else m.decryptedYesAmount) = L)
    (hW0 : W ≠ 0) (hL0 : L ≠ 0)
    (hov : W * L < U64) (hWL : W + L < U64)
    (hstakes : l.sum ≤ W) :
    (l.map (winPayoutValue m isYes)).sum ≤ W + L := by
  have hWpos : 0 < W := Nat.pos_of_ne_zero hW0
  by_cases hfee : (W + L) * FEE_BASIS_POINTS < U64
  · have hform : ∀ s ∈ l, winPayoutValue m isYes s = s + s * L / W := by
      intro s hsmem
      have hsW : s ≤ W :=
        le_trans (List.single_le_sum (fun x _ => Nat.zero_le x) s hsmem) hstakes
      have hsL : s * L < U64 :=
        lt_of_le_of_lt (Nat.mul_le_mul_right L hsW) hov
      have hdiv : s * L / W ≤ L := by
        calc s * L / W ≤ W * L / W := Nat.div_le_div_right (Nat.mul_le_mul_right L hsW)
          _ = L := Nat.mul_div_cancel_left L hWpos
      have hpay : s + s * L / W < U64 :=
        lt_of_le_of_lt (Nat.add_le_add hsW hdiv) hWL
      unfold winPayoutValue
      rw [calculateWinningPayout_nonzero m s W L isYes hdec hW hL hW0 hL0 hfee
        hsL hpay]
      rfl
    rw [List.map_congr_left hform]
    calc (l.map fun s => s + s * L / W).sum
        ≤ l.sum + l.sum * L / W := sum_map_payout_le W L l
      _ ≤ W + W * L / W := by
          exact Nat.add_le_add hstakes
            (Nat.div_le_div_right (Nat.mul_le_mul_right L hstakes))
      _ = W + L := by rw [Nat.mul_div_cancel_left L hWpos]
  · have hzero : ∀ s ∈ l, winPayoutValue m isYes s = 0 := by
      intro s _
      unfold winPayoutValue
      rw [calculateWinningPayout_overflow m s W L isYes hdec hW hL hW0 hL0
        (Or.inr (Nat.le_of_not_lt hfee))]
      rfl
    rw [List.map_congr_left hzero]
    simp

/-- Witness for the amended C8: the two winning stakes 1000 and 500 sum to
the winning pool 1500 and their payouts 2333 + 1166 = 3499 stay below the
combined pool 3500. -/
theorem payout_sum_bounded_by_total_pool_witness :
    List.sum [1000, 500] ≤ 1500 ∧
    (([1000, 500].map (winPayoutValue exMarketYesWins true)).sum ≤ 1500 + 2000) :=
  ⟨by norm_num,
    payout_sum_bounded_by_total_pool exMarketYesWins [1000, 500] 1500 2000 true
      rfl rfl rfl (by norm_num) (by norm_num) (by norm_num [U64])
      (by norm_num [U64]) (by norm_num)⟩

/-- **C1.** On every successful `placeBet`, the amount added to the
bettor's encrypted position and to the market's encrypted pool totals is
exactly the observed token-balance delta of the market contract across the
transfer (`balanceAfter - balanceBefore`), never the requested encrypted
amount: when the token silently moved `transferred < requested` units
(insufficient balance/allowance), the credited amount is `transferred`.
The bounds say balances and the touched position/pool sums stay inside the
euint64 range. -/
theorem placeBet_credits_observed_delta (m : Market) (p : Position)
    (now requested transferred bal : Nat) (outcome : Bool) (r : BetResult)
    (hbal : bal + transferred < U64)
    (hyes : p.yesAmount + transferred < U64)
    (hno : p.noAmount + transferred < U64)
    (hty : m.totalYesAmount + transferred < U64)
    (htn : m.totalNoAmount + transferred < U64)
    (h : placeBet m p now requested outcome bal transferred = .ok r) :
    r.credited = transferred ∧
    r.position.yesAmount + r.position.noAmount =
      p.yesAmount + p.noAmount + transferred ∧
    r.market.totalYesAmount + r.market.totalNoAmount =
      m.totalYesAmount + m.totalNoAmount + transferred ∧
    (transferred ≠ requested → r.credited ≠ requested) := by
  have hdelta : FHE.sub (FHE.add bal transferred) bal = transferred :=
    FHE.add_sub_cancel bal transferred hbal
  unfold placeBet at h
  split at h
  next => exact Except.noConfusion h
  next =>
  split at h
  next => exact Except.noConfusion h
  next =>
  rw [Except.ok.injEq] at h
  subst h
  refine ⟨hdelta, ?_, ?_, fun hne h2 => hne (hdelta ▸ h2)⟩
  · show (updatePosition p (FHE.sub (FHE.add bal transferred) bal) outcome).yesAmount
        + (updatePosition p (FHE.sub (FHE.add bal transferred) bal) outcome).noAmount
        = p.yesAmount + p.noAmount + transferred
    rw [hdelta]
    cases outcome <;>
      simp [updatePosition, FHE.select, FHE.add, Nat.mod_eq_of_lt hyes,
        Nat.mod_eq_of_lt hno] <;> omega
  · show (updateMarketTotals m (FHE.sub (FHE.add bal transferred) bal) outcome).totalYesAmount
        + (updateMarketTotals m (FHE.sub (FHE.add bal transferred) bal) outcome).totalNoAmount
        = m.totalYesAmount + m.totalNoAmount + transferred
    rw [hdelta]
    cases outcome <;>
      simp [updateMarketTotals, FHE.select, FHE.add, Nat.mod_eq_of_lt hty,
        Nat.mod_eq_of_lt htn] <;> omega

/-- Witness for C1: on the open example market a bettor requests 1000 but
the token only moves 400; exactly 400 is credited to position and pool. -/
theorem placeBet_credits_observed_delta_witness :
    placeBet exMarketOpen ⟨0, 0, false, false⟩ 5 1000 true 0 400 =
      .ok ⟨{ exMarketOpen with totalYesAmount := 400 }, ⟨400, 0, true, false⟩, 400⟩ ∧
    (400 : Nat) = 400 ∧
    (400 : Nat) + 0 = 0 + 0 + 400 ∧
    (400 : Nat) + 0 = 0 + 0 + 400 ∧
    ((400 : Nat) ≠ 1000 → (400 : Nat) ≠ 1000) := by
  refine ⟨rfl, ?_⟩
  have h := placeBet_credits_observed_delta exMarketOpen ⟨0, 0, false, false⟩
    5 1000 400 0 true
    ⟨{ exMarketOpen with totalYesAmount := 400 }, ⟨400, 0, true, false⟩, 400⟩
    (by norm_num [U64]) (by norm_num [U64]) (by norm_num [U64])
    (by norm_num [exMarketOpen, exMarketResolving, exMarketYesWins, U64])
    (by norm_num [exMarketOpen, exMarketResolving, exMarketYesWins, U64]) rfl
  exact h

/-- **C2.** The lifecycle only moves along Open → Locked → Resolving →
Resolved, with no skip and no cycle: `lockMarket` maps Open to Locked only
at or after the betting deadline, `requestResolution` maps Locked to
Resolving only at or after the resolution time (and only for an authorized
resolver), and a verified `submitDecryptedTotals` maps Resolving to
Resolved; each of the three invoked in any other state fails with the
invalid-state error, and an error result models a revert, which leaves the
market unchanged. -/
theorem lifecycle_transitions :
    (∀ (m m' : Market) (now : Nat), lockMarket m now = .ok m' →
      m.state = MarketState.Open ∧ m'.state = MarketState.Locked ∧
        m.bettingDeadline ≤ now) ∧
    (∀ (m : Market) (now : Nat), m.state ≠ MarketState.Open →
      lockMarket m now = .error Err.invalidState) ∧
    (∀ (m m' : Market) (now ownerAddr caller : Nat),
      requestResolution m now ownerAddr caller = .ok m' →
      m.state = MarketState.Locked ∧ m'.state = MarketState.Resolving ∧
        m.resolutionTime ≤ now) ∧
    (∀ (m : Market) (now ownerAddr caller : Nat), m.state ≠ MarketState.Locked →
      requestResolution m now ownerAddr caller = .error Err.invalidState) ∧
    (∀ (kms : KmsModel) (m m' : Market) (hl : List Nat) (c : Nat × Nat) (pf : Nat),
      submitDecryptedTotals kms m hl c pf = .ok m' →
      m.state = MarketState.Resolving ∧ m'.state = MarketState.Resolved ∧
        m'.totalsDecrypted = true) ∧
    (∀ (kms : KmsModel) (m : Market) (hl : List Nat) (c : Nat × Nat) (pf : Nat),
      m.state ≠ MarketState.Resolving →
      submitDecryptedTotals kms m hl c pf = .error Err.invalidState) := by
  refine ⟨?_, ?_, ?_, ?_, ?_, ?_⟩
  · intro m m' now h
    unfold lockMarket at h
    split at h
    next => exact Except.noConfusion h
    next hst =>
    split at h
    next => exact Except.noConfusion h
    next hdl =>
    rw [Except.ok.injEq] at h
    subst h
    exact ⟨not_not.mp hst, rfl, Nat.le_of_not_lt hdl⟩
  · intro m now hst
    unfold lockMarket
    rw [if_pos hst]
  · intro m m' now ownerAddr caller h
    unfold requestResolution at h
    split at h
    next => exact Except.noConfusion h
    next hst =>
    split at h
    next => exact Except.noConfusion h
    next hdl =>
    split at h
    next => exact Except.noConfusion h
    next hauth =>
    rw [Except.ok.injEq] at h
    subst h
    exact ⟨not_not.mp hst, rfl, Nat.le_of_not_lt hdl⟩
  · intro m now ownerAddr caller hst
    unfold requestResolution
    rw [if_pos hst]
  · intro kms m m' hl c pf h
    unfold submitDecryptedTotals at h
    split at h
    next => exact Except.noConfusion h
    next hst =>
    split at h
    next => exact Except.noConfusion h
    next hkms =>
    rw [Except.ok.injEq] at h
    subst h
    exact ⟨not_not.mp hst, rfl, rfl⟩
  · intro kms m hl c pf hst
    unfold submitDecryptedTotals
    rw [if_pos hst]

/-- The open example market after locking. -/
def exMarketLocked : Market := { exMarketOpen with state := MarketState.Locked }

/-- Witness for C2: each of the six lifecycle facts at concrete markets —
the open market locks at its deadline, a locked market cannot be locked
again, the locked market enters Resolving at its resolution time under its
resolver, an open market cannot request resolution, the resolving market
settles on a verified submission, and an open market cannot settle. -/
theorem lifecycle_transitions_witness :
    (exMarketOpen.state = MarketState.Open ∧
      (exMarketOpen.lockState).state = MarketState.Locked ∧
      exMarketOpen.bettingDeadline ≤ 100) ∧
    lockMarket exMarketLocked 100 = .error Err.invalidState ∧
    (exMarketLocked.state = MarketState.Locked ∧
      ({ exMarketLocked with state := MarketState.Resolving } : Market).state =
        MarketState.Resolving ∧
      exMarketLocked.resolutionTime ≤ 200) ∧
    requestResolution exMarketOpen 200 9 5 = .error Err.invalidState ∧
    (exMarketResolving.state = MarketState.Resolving ∧
      (exMarketResolving.markResolved Outcome.NotSet (7 % U64) (9 % U64)).state =
        MarketState.Resolved ∧
      (exMarketResolving.markResolved Outcome.NotSet (7 % U64) (9 % U64)).totalsDecrypted =
        true) ∧
    submitDecryptedTotals (fun _ _ _ => true) exMarketOpen [] (0, 0) 0 =
      .error Err.invalidState := by
  have t := lifecycle_transitions
  exact ⟨t.1 exMarketOpen (exMarketOpen.lockState) 100 rfl,
    t.2.1 exMarketLocked 100 (by decide),
    t.2.2.1 exMarketLocked ({ exMarketLocked with state := MarketState.Resolving }) 200 9 5 rfl,
    t.2.2.2.1 exMarketOpen 200 9 5 (by decide),
    t.2.2.2.2.1 (fun _ _ _ => true) exMarketResolving
      (exMarketResolving.markResolved Outcome.NotSet (7 % U64) (9 % U64)) [] (7, 9) 0 rfl,
    t.2.2.2.2.2 (fun _ _ _ => true) exMarketOpen [] (0, 0) 0 (by decide)⟩

/-- A KMS model that has signed exactly one decryption: handles [77, 78]
(belonging to some other pair of publicly decryptable ciphertexts, not the
example market's own pool handles 11 and 12) opening to cleartexts (7, 9),
under proof 1. -/
def kmsForeign : KmsModel := fun hl c pf => hl == [77, 78] && c == (7, 9) && pf == 1

/-- **C4 counterexample.** `submitDecryptedTotals` never compares the
submitted handles list with the market's own pool-total handles: a
submission whose proof verifies over the foreign handles [77, 78] —
distinct from the market's own handles [11, 12] — is accepted, stores the
claimed cleartexts (7, 9) as this market's totals and sets its
totals-decrypted flag. -/
theorem submitDecryptedTotals_foreign_handles_accepted :
    ([77, 78] : List Nat) ≠ [exMarketResolving.yesHandle, exMarketResolving.noHandle] ∧
    submitDecryptedTotals kmsForeign exMarketResolving [77, 78] (7, 9) 1 =
      .ok { exMarketResolving with
        state := MarketState.Resolved
        totalsDecrypted := true
        decryptedYesAmount := 7
        decryptedNoAmount := 9 } :=
  ⟨by decide, rfl⟩

/-- **C4 (amended).** `submitDecryptedTotals` stores plaintext totals and
sets the totals-decrypted flag exactly when the market is Resolving and
the KMS proof verifies over the *submitted* handles list together with the
claimed cleartexts (the handles are not checked to be the market's own
pool handles — see the counterexample); a submission whose proof does not
verify is rejected with no state change (an error models a revert) and, the
market still being Resolving, may later be retried with a verifying
triple. -/
theorem submitDecryptedTotals_characterization (kms : KmsModel) (m : Market)
    (hl : List Nat) (c : Nat × Nat) (pf : Nat) :
    (m.state ≠ MarketState.Resolving →
      submitDecryptedTotals kms m hl c pf = .error Err.invalidState) ∧
    (m.state = MarketState.Resolving → kms hl c pf = false →
      submitDecryptedTotals kms m hl c pf = .error Err.invalidDecryptionProof) ∧
    (m.state = MarketState.Resolving → kms hl c pf = true →
      submitDecryptedTotals kms m hl c pf =
        .ok (m.markResolved Outcome.NotSet (c.1 % U64) (c.2 % U64))) := by
  refine ⟨fun hst => ?_, fun hst hk => ?_, fun hst hk => ?_⟩
  · unfold submitDecryptedTotals
    rw [if_pos hst]
  · unfold submitDecryptedTotals
    rw [if_neg (by simp [hst]), if_pos (by simp [hk])]
  · unfold submitDecryptedTotals
    rw [if_neg (by simp [hst]), if_neg (by simp [hk])]

/-- Witness for the amended C4: wrong state rejected, unverified proof
rejected, and the same Resolving market then accepts a verifying triple. -/
theorem submitDecryptedTotals_characterization_witness :
    submitDecryptedTotals kmsForeign exMarketOpen [77, 78] (7, 9) 1 =
      .error Err.invalidState ∧
    submitDecryptedTotals kmsForeign exMarketResolving [0] (7, 9) 1 =
      .error Err.invalidDecryptionProof ∧
    submitDecryptedTotals kmsForeign exMarketResolving [77, 78] (7, 9) 1 =
      .ok (exMarketResolving.markResolved Outcome.NotSet (7 % U64) (9 % U64)) :=
  ⟨(submitDecryptedTotals_characterization kmsForeign exMarketOpen [77, 78] (7, 9) 1).1
      (by decide),
    (submitDecryptedTotals_characterization kmsForeign exMarketResolving [0] (7, 9) 1).2.1
      rfl rfl,
    (submitDecryptedTotals_characterization kmsForeign exMarketResolving [77, 78] (7, 9) 1).2.2
      rfl rfl⟩

/-- **C5 counterexample.** The example market is Resolved with outcome
already set to Yes; its resolver calls `setResolution` again with No and
the call succeeds, changing the outcome: the source checks only state,
caller and argument validity, never that the outcome is still NotSet. -/
theorem setResolution_overwrites_outcome :
    exMarketYesWins.resolvedOutcome = Outcome.Yes ∧
    setResolution exMarketYesWins 9 5 Outcome.No =
      .ok { exMarketYesWins with resolvedOutcome := Outcome.No } :=
  ⟨rfl, rfl⟩

/-- **C5 (amended).** `setResolution` succeeds exactly when called by an
authorized resolver on a market in Resolved state with an argument in
{Yes, No, Invalid} (NotSet fails validation) — the current outcome is not
consulted, so a later authorized call can overwrite an already-set
outcome. -/
theorem setResolution_characterization (m : Market) (ownerAddr caller : Nat)
    (o : Outcome) :
    (m.state ≠ MarketState.Resolved →
      setResolution m ownerAddr caller o = .error Err.invalidState) ∧
    (m.state = MarketState.Resolved →
      isAuthorizedResolver m ownerAddr caller = false →
      setResolution m ownerAddr caller o = .error Err.unauthorizedResolver) ∧
    (m.state = MarketState.Resolved →
      isAuthorizedResolver m ownerAddr caller = true → o = Outcome.NotSet →
      setResolution m ownerAddr caller o = .error Err.invalidOutcome) ∧
    (m.state = MarketState.Resolved →
      isAuthorizedResolver m ownerAddr caller = true →
      (o = Outcome.Yes ∨ o = Outcome.No ∨ o = Outcome.Invalid) →
      setResolution m ownerAddr caller o = .ok { m with resolvedOutcome := o }) := by
  refine ⟨fun hst => ?_, fun hst hauth => ?_, fun hst hauth ho => ?_,
    fun hst hauth ho => ?_⟩
  · unfold setResolution
    rw [if_pos hst]
  · unfold setResolution
    rw [if_neg (by simp [hst]), if_pos (by simp [hauth])]
  · unfold setResolution
    rw [if_neg (by simp [hst]), if_neg (by simp [hauth]),
      if_pos (by subst ho; decide)]
  · unfold setResolution
    rw [if_neg (by simp [hst]), if_neg (by simp [hauth]), if_neg (by simp [ho])]

/-- Witness for the amended C5: the resolver re-sets the Yes-resolved
example market to No (overwrite succeeds), and NotSet fails validation. -/
theorem setResolution_characterization_witness :
    setResolution exMarketYesWins 9 5 Outcome.No =
      .ok { exMarketYesWins with resolvedOutcome := Outcome.No } ∧
    setResolution exMarketYesWins 9 5 Outcome.NotSet = .error Err.invalidOutcome ∧
    setResolution exMarketYesWins 9 7 Outcome.No = .error Err.unauthorizedResolver ∧
    setResolution exMarketOpen 9 5 Outcome.No = .error Err.invalidState :=
  ⟨(setResolution_characterization exMarketYesWins 9 5 Outcome.No).2.2.2
      rfl rfl (Or.inr (Or.inl rfl)),
    (setResolution_characterization exMarketYesWins 9 5 Outcome.NotSet).2.2.1
      rfl rfl rfl,
    (setResolution_characterization exMarketYesWins 9 7 Outcome.No).2.1
      rfl rfl,
    (setResolution_characterization exMarketOpen 9 5 Outcome.No).1
      (by decide)⟩

/-- **C6.** At most one `claimWinnings` succeeds per (market, bettor):
a successful claim leaves the position marked claimed, and any repeated
claim on that position fails with the already-claimed error — an error
models a revert, so no token transfer happens and no state changes. -/
theorem claim_at_most_once (m : Market) (p : Position) (r : ClaimResult)
    (h : claimWinnings m p = .ok r) :
    r.position.claimed = true ∧
    claimWinnings m r.position = .error Err.alreadyClaimed := by
  unfold claimWinnings at h
  split at h
  next => exact Except.noConfusion h
  next hst =>
  split at h
  next => exact Except.noConfusion h
  next hcl =>
  cases hcp : calculatePayout p m m.resolvedOutcome.toCode with
  | error e =>
    rw [hcp] at h
    exact Except.noConfusion h
  | ok v =>
    rw [hcp] at h
    have h2 : Except.ok (⟨{ p with claimed := true }, v⟩ : ClaimResult) =
        Except.ok r := h
    rw [Except.ok.injEq] at h2
    subst h2
    refine ⟨rfl, ?_⟩
    unfold claimWinnings
    rw [if_neg hst, if_pos rfl]

/-- Witness for C6: the 1000-stake Yes bettor of the test scenario claims
2333 once; the second claim reverts AlreadyClaimed. -/
theorem claim_at_most_once_witness :
    claimWinnings exMarketYesWins ⟨1000, 0, true, false⟩ =
      .ok ⟨⟨1000, 0, true, true⟩, 2333⟩ ∧
    (⟨⟨1000, 0, true, true⟩, 2333⟩ : ClaimResult).position.claimed = true ∧
    claimWinnings exMarketYesWins (⟨1000, 0, true, true⟩ : Position) =
      .error Err.alreadyClaimed := by
  refine ⟨rfl, ?_, ?_⟩
  · exact (claim_at_most_once exMarketYesWins ⟨1000, 0, true, false⟩
      ⟨⟨1000, 0, true, true⟩, 2333⟩ rfl).1
  · exact (claim_at_most_once exMarketYesWins ⟨1000, 0, true, false⟩
      ⟨⟨1000, 0, true, true⟩, 2333⟩ rfl).2

end BlindBet


